import Mathlib

/-!
Verification of the structural-similarity engine of the code-plagiarism
repository.  The repository ships two constant modules
(`codeplag/cplag/const.py`, `codeplag/consts.tmp.py`) and a test suite; the
walker, comparator, orchestrator and web-parser bodies are specified in the
design document.  Constants are embedded verbatim from the source; the
missing function bodies are modelled from the specification, as marked on
each definition.
-/

namespace CodePlag

/-- Clang cursor kinds, from `clang.cindex.CursorKind` as used by
`codeplag/cplag/const.py`.  This is the subset of libclang's cursor-kind
enumeration relevant to the ignore set plus representative structural kinds.
libclang's cursor enumeration exposes no comment or docstring kinds:
comments never appear as cursors of the traversed tree. -/
inductive CursorKind where
  | PREPROCESSING_DIRECTIVE
  | MACRO_DEFINITION
  | MACRO_INSTANTIATION
  | INCLUSION_DIRECTIVE
  | USING_DIRECTIVE
  | NAMESPACE
  | TRANSLATION_UNIT
  | FUNCTION_DECL
  | PARM_DECL
  | VAR_DECL
  | COMPOUND_STMT
  | IF_STMT
  | FOR_STMT
  | WHILE_STMT
  | RETURN_STMT
  | CALL_EXPR
  | DECL_REF_EXPR
  | BINARY_OPERATOR
  | UNARY_OPERATOR
  | INTEGER_LITERAL
  | STRING_LITERAL
  deriving DecidableEq

/-- The constant `IGNORE` from `src/codeplag/cplag/const.py` (verbatim: the
`MACRO_DEFINITION` entry is commented out in the source and hence absent). -/
def IGNORE : List CursorKind :=
  [CursorKind.PREPROCESSING_DIRECTIVE,
   CursorKind.MACRO_INSTANTIATION,
   CursorKind.INCLUSION_DIRECTIVE,
   CursorKind.USING_DIRECTIVE,
   CursorKind.NAMESPACE]

/-- The cursor kind of a C++ preprocessor directive proper
(`CursorKind.PREPROCESSING_DIRECTIVE`; macro definition/instantiation and
inclusion are their own, more specific kinds in libclang). -/
def isPreprocessorDirectiveKind (k : CursorKind) : Prop :=
  k = CursorKind.PREPROCESSING_DIRECTIVE

/-- The cursor kind of an include (`CursorKind.INCLUSION_DIRECTIVE`). -/
def isIncludeKind (k : CursorKind) : Prop := k = CursorKind.INCLUSION_DIRECTIVE

/-- The cursor kinds of using directives and namespace declarations. -/
def isUsingOrNamespaceKind (k : CursorKind) : Prop :=
  k = CursorKind.USING_DIRECTIVE ∨ k = CursorKind.NAMESPACE

/-- The cursor kinds representing comments: libclang's cursor enumeration
exposes no comment cursor kind — comments never appear as nodes of the
traversed tree — so this category is empty over the CursorKind alphabet. -/
def isCommentKind (_ : CursorKind) : Prop := False

/-- The cursor kinds representing docstrings: C++ docstrings are comments
and, like comments, have no cursor kind in libclang, so this category is
empty over the CursorKind alphabet. -/
def isDocstringKind (_ : CursorKind) : Prop := False

/-- The constant `OPERATORS` from `src/codeplag/cplag/const.py`, verbatim: a flat tuple of
operator spellings; membership in this tuple is what makes a token count as
operator evidence.  The tuple carries no mapping structure. -/
def OPERATORS : List String :=
  ["+", "-", "*", "/", "%",
   "+=", "-=", "*=", "/=", "%=", "=",
   "!", "&&", "||",
   "!=", "==", "<=", ">=", "<", ">",
   "^", "&", "|", "<<", ">>", "~"]

/-- Operator evidence collected from a token stream by the CPP backend: a
token contributes exactly when its spelling is a member of `OPERATORS`, and
it is counted under its own spelling.  `OPERATORS` is a flat tuple of
spellings used by membership test; the source carries no normalization
mapping from compound assignment operators to other spellings. -/
def operatorEvidence (tokens : List String) : Multiset String :=
  ↑(tokens.filter (fun tok => tok ∈ OPERATORS))

/-- A source line range, as recorded by `position_index`. -/
structure SrcSpan where
  start_line : Nat
  end_line : Nat
  deriving DecidableEq

/-- The data a single visited node contributes to extraction: its kind, an
optional operator spelling, an optional literal value, and its source span. -/
structure TokenInfo (K : Type) where
  kind : K
  op : Option String
  lit : Option String
  span : SrcSpan
  deriving DecidableEq

mutual
/-- Modelled from the spec: a parsed syntax-tree node as seen by the Language
Walker — a node kind, the identifier spelling (never read by extraction), an
optional operator spelling, an optional literal value, a source span, and
children. -/
inductive TreeNode (K : Type) where
  | node (kind : K) (name : String) (op : Option String) (lit : Option String)
      (span : SrcSpan) (children : Forest K)
/-- The children list of a `TreeNode`. -/
inductive Forest (K : Type) where
  | nil
  | cons (head : TreeNode K) (tail : Forest K)
end

/-- The kind at the root of a tree. -/
def TreeNode.kind {K : Type} : TreeNode K → K
  | .node k _ _ _ _ _ => k

/-- The children of the root of a tree. -/
def TreeNode.children {K : Type} : TreeNode K → Forest K
  | .node _ _ _ _ _ cs => cs

mutual
/-- Modelled from the spec: the pre-order traversal of the Language Walker
(`extract`): any subtree whose root kind lies in the ignore set is skipped
entirely; every other node contributes exactly one token. -/
def visited {K : Type} (ign : List K) [DecidableEq K] : TreeNode K → List (TokenInfo K)
  | .node k _ o l sp cs => if k ∈ ign then [] else ⟨k, o, l, sp⟩ :: visitedF ign cs
/-- Traversal of a forest of siblings, left to right. -/
def visitedF {K : Type} (ign : List K) [DecidableEq K] : Forest K → List (TokenInfo K)
  | .nil => []
  | .cons t ts => visited ign t ++ visitedF ign ts
end

/-- The record `CanonicalFeatures`, modelled from the spec (§3): head sequence, operator
multiset, literal set, the two counts, and the position index. -/
structure CanonicalFeatures (K : Type) where
  head_sequence : List K
  operator_set : Multiset String
  literal_set : Finset String
  unique_node_count : Nat
  total_node_count : Nat
  position_index : List SrcSpan
  deriving DecidableEq

/-- Modelled from the spec: `extract(SourceUnit) -> CanonicalFeatures` — the
Language Walker contract, assembled from the pre-order traversal. -/
def extract {K : Type} (ign : List K) [DecidableEq K] (t : TreeNode K) :
    CanonicalFeatures K :=
  { head_sequence := (visited ign t).map TokenInfo.kind
    operator_set := ↑((visited ign t).filterMap TokenInfo.op)
    literal_set := ((visited ign t).filterMap TokenInfo.lit).toFinset
    unique_node_count := ((visited ign t).map TokenInfo.kind).dedup.length
    total_node_count := (visited ign t).length
    position_index := (visited ign t).map TokenInfo.span }

mutual
/-- The canonical shape of a tree: identifier names erased, source spans
zeroed, subtrees rooted at ignored kinds dropped.  Two parse trees have the
same canonical shape exactly when their source texts differ only in
identifier names, whitespace (which moves source spans), and
ignored material such as comments. -/
def canon {K : Type} (ign : List K) [DecidableEq K] : TreeNode K → TreeNode K
  | .node k _ o l _ cs => .node k "" o l ⟨0, 0⟩ (canonF ign cs)
/-- Canonical shape of a forest: ignored-rooted siblings dropped. -/
def canonF {K : Type} (ign : List K) [DecidableEq K] : Forest K → Forest K
  | .nil => .nil
  | .cons t ts =>
      if t.kind ∈ ign then canonF ign ts
      else .cons (canon ign t) (canonF ign ts)
end

/-- Zero out the span of one extracted token. -/
def stripSpan {K : Type} (ti : TokenInfo K) : TokenInfo K :=
  ⟨ti.kind, ti.op, ti.lit, ⟨0, 0⟩⟩

/-- Modelled from the spec (§4.2): operator-set Jaccard over the operator
multisets, with the vacuous-agreement rule — an empty union scores 1. -/
def jaccardM (a b : Multiset String) : ℚ :=
  if a ∪ b = 0 then 1
  else (Multiset.card (a ∩ b) : ℚ) / (Multiset.card (a ∪ b) : ℚ)

/-- Modelled from the spec (§4.2): literal-set Jaccard over the literal sets,
with the vacuous-agreement rule — an empty union scores 1. -/
def jaccardF (a b : Finset String) : ℚ :=
  if a ∪ b = ∅ then 1
  else ((a ∩ b).card : ℚ) / ((a ∪ b).card : ℚ)

/-- Modelled from the spec (§4.2): size-similarity ratio
`min(len a, len b) / max(len a, len b)` of the head-sequence lengths. -/
def sizeSim (a b : Nat) : ℚ := ((min a b : Nat) : ℚ) / ((max a b : Nat) : ℚ)

/-- Fast-metric weights; configuration per the spec (§4.2 and §6). -/
structure Weights where
  w_op : ℚ
  w_lit : ℚ
  w_size : ℚ

/-- Modelled from the spec (§4.2): the fast metric — a weighted combination
of the operator Jaccard, the literal Jaccard, and the size-similarity ratio. -/
def fast {K : Type} [DecidableEq K] (w : Weights) (a b : CanonicalFeatures K) : ℚ :=
  w.w_op * jaccardM a.operator_set b.operator_set
    + w.w_lit * jaccardF a.literal_set b.literal_set
    + w.w_size * sizeSim a.head_sequence.length b.head_sequence.length

/-- Modelled from the spec (§4.2): length of the longest common subsequence
of two head sequences (the standard LCS recurrence over the NodeKind
alphabet). -/
def lcsLength {K : Type} [DecidableEq K] : List K → List K → Nat
  | [], _ => 0
  | _ :: _, [] => 0
  | a :: as, b :: bs =>
      if a = b then lcsLength as bs + 1
      else max (lcsLength (a :: as) bs) (lcsLength as (b :: bs))
termination_by xs ys => xs.length + ys.length

/-- Modelled from the spec (§4.2): a deterministic LCS backtrace pairing the
source spans of aligned head-sequence positions. -/
def lcsPairs {K : Type} [DecidableEq K] :
    List (K × SrcSpan) → List (K × SrcSpan) → List (SrcSpan × SrcSpan)
  | [], _ => []
  | _ :: _, [] => []
  | a :: as, b :: bs =>
      if a.1 = b.1 then (a.2, b.2) :: lcsPairs as bs
      else if lcsLength ((a :: as).map Prod.fst) (bs.map Prod.fst)
              ≥ lcsLength (as.map Prod.fst) ((b :: bs).map Prod.fst)
      then lcsPairs (a :: as) bs
      else lcsPairs as (b :: bs)
termination_by xs ys => xs.length + ys.length

/-- Modelled from the spec (§4.2): contiguous runs of aligned positions are
merged into single fragment ranges. -/
def mergeFragments : List (SrcSpan × SrcSpan) → List (SrcSpan × SrcSpan)
  | [] => []
  | p :: ps =>
      match mergeFragments ps with
      | [] => [p]
      | q :: qs =>
          if q.1.start_line ≤ p.1.end_line + 1 ∧ q.2.start_line ≤ p.2.end_line + 1
          then (⟨p.1.start_line, q.1.end_line⟩, ⟨p.2.start_line, q.2.end_line⟩) :: qs
          else p :: q :: qs

/-- Modelled from the spec (§4.2): the precise metric — the normalized LCS
score `2 * LCS / (len a + len b)` together with the matched fragments mapped
through the position index. -/
def precise {K : Type} [DecidableEq K] (a b : CanonicalFeatures K) :
    ℚ × List (SrcSpan × SrcSpan) :=
  ((2 * lcsLength a.head_sequence b.head_sequence : ℚ)
      / ((a.head_sequence.length : ℚ) + (b.head_sequence.length : ℚ)),
   mergeFragments (lcsPairs (a.head_sequence.zip a.position_index)
      (b.head_sequence.zip b.position_index)))

/-- Modelled from the spec (§4.2): the decision rule — a pair is matched
exactly when `max(fast_metric, precise_metric) * 100 >= Threshold`. -/
def matchedDecision (threshold fast_metric precise_metric : ℚ) : Bool :=
  max fast_metric precise_metric * 100 ≥ threshold

/-- Comparison modes, from `MODE_CHOICE` in `src/codeplag/consts.tmp.py`. -/
inductive Mode where
  | many_to_many
  | one_to_one
  deriving DecidableEq

/-- The constant `DEFAULT_THRESHOLD` from `src/codeplag/consts.tmp.py`. -/
def DEFAULT_THRESHOLD : Nat := 65

/-- A successfully parsed work: its origin identifier and its cached
`CanonicalFeatures` (spec §3). -/
structure Work (K : Type) where
  origin : String
  features : CanonicalFeatures K
  deriving DecidableEq

/-- The record `ComparisonResult`, modelled from the spec (§3): both unit identifiers,
both metrics (the precise one absent when the pair was not escalated past the
prefilter), the matched fragments and the matched flag. -/
structure ComparisonResult where
  unit_a_id : String
  unit_b_id : String
  fast_metric : ℚ
  precise_metric : Option ℚ
  matched_fragments : List (SrcSpan × SrcSpan)
  matched : Bool
  deriving DecidableEq

/-- Modelled from the spec (§4.2, §5): score one pair — the fast metric is
always computed, the precise metric only when the fast metric clears the
prefilter cutoff; the decision rule is applied to the best available score. -/
def compareWorks {K : Type} [DecidableEq K] (w : Weights) (threshold cutoff : ℚ)
    (a b : Work K) : ComparisonResult :=
  let f := fast w a.features b.features
  if f ≥ cutoff then
    let p := precise a.features b.features
    { unit_a_id := a.origin, unit_b_id := b.origin, fast_metric := f,
      precise_metric := some p.1, matched_fragments := p.2,
      matched := matchedDecision threshold f p.1 }
  else
    { unit_a_id := a.origin, unit_b_id := b.origin, fast_metric := f,
      precise_metric := none, matched_fragments := [],
      matched := matchedDecision threshold f f }

/-- Modelled from the spec (§4.3): the unordered all-pairs enumeration — each
element against every later element, no self-pairs. -/
def allPairs {α : Type} : List α → List (α × α)
  | [] => []
  | x :: xs => xs.map (fun y => (x, y)) ++ allPairs xs

/-- Modelled from the spec (§4.3): `many_to_many` mode — score every
unordered pair of distinct works of one corpus. -/
def manyToMany {K : Type} [DecidableEq K] (w : Weights) (threshold cutoff : ℚ)
    (works : List (Work K)) : List ComparisonResult :=
  (allPairs works).map (fun p => compareWorks w threshold cutoff p.1 p.2)

/-- The value stored under one key of a persisted report record. -/
inductive ReportValue where
  | str (s : String)
  | num (q : ℚ)
  | optNum (q : Option ℚ)
  | flag (b : Bool)
  | frags (f : List (SrcSpan × SrcSpan))
  | mode (m : Mode)
  deriving DecidableEq

/-- The record `WorksReport`, modelled from the spec (§3, §6): one persisted record per
compared pair — both origin identifiers, both metrics, the matched flag, the
matched fragments, and the run's threshold and mode. -/
structure WorksReport where
  first_path : String
  second_path : String
  fast_metric : ℚ
  precise_metric : Option ℚ
  matched : Bool
  matched_fragments : List (SrcSpan × SrcSpan)
  threshold : ℚ
  mode : Mode

/-- The declared field keys of `WorksReport`, in declaration order (the
analogue of `WorksReport.__annotations__.keys()` checked by
`test/auto/test_functional.py::test_save_reports`). -/
def reportKeys : List String :=
  ["first_path", "second_path", "fast_metric", "precise_metric",
   "matched", "matched_fragments", "threshold", "mode"]

/-- Modelled from the spec (§4.4): the Report Builder turns one
`ComparisonResult` into one `WorksReport`, attaching the run's threshold and
mode; it does not re-derive or adjust metrics. -/
def buildReport (threshold : ℚ) (m : Mode) (r : ComparisonResult) : WorksReport :=
  { first_path := r.unit_a_id, second_path := r.unit_b_id,
    fast_metric := r.fast_metric, precise_metric := r.precise_metric,
    matched := r.matched, matched_fragments := r.matched_fragments,
    threshold := threshold, mode := m }

/-- Serialization of one report record to its persisted key-value form. -/
def serializeReport (r : WorksReport) : List (String × ReportValue) :=
  [("first_path", .str r.first_path),
   ("second_path", .str r.second_path),
   ("fast_metric", .num r.fast_metric),
   ("precise_metric", .optNum r.precise_metric),
   ("matched", .flag r.matched),
   ("matched_fragments", .frags r.matched_fragments),
   ("threshold", .num r.threshold),
   ("mode", .mode r.mode)]

/-- Modelled from the spec (§4.4, §6): persist one record per comparison
result, each carrying the run's threshold and mode. -/
def saveReports (threshold : ℚ) (m : Mode) (results : List ComparisonResult) :
    List (List (String × ReportValue)) :=
  results.map (fun r => serializeReport (buildReport threshold m r))

/-- An HTTP response as observed by the web parser: a status code and a JSON
object payload, modelled as a key-value list (mirroring the `Response` mock
of `test/unit/webparsers/test_github_parser.py`). -/
structure Response where
  status_code : Nat
  payload : List (String × String)
  deriving DecidableEq

/-- The two failure classes of `send_get_request` exercised by
`test_send_get_request_bad`: terminating via `sys.exit` (SystemExit) and an
uncaught dictionary access (KeyError). -/
inductive RequestFailure where
  | systemExit
  | keyError
  deriving DecidableEq

/-- Modelled from the spec (§9 design note) and
`test/unit/webparsers/test_github_parser.py`:
`GitHubParser.send_get_request` returns the response on status 200; on a
failing status it inspects the payload for a `message` field — present means
an authorization/rate-limit style termination (SystemExit), absent means the
dictionary access itself fails (KeyError). -/
def send_get_request (r : Response) : Except RequestFailure Response :=
  if r.status_code = 200 then .ok r
  else
    match r.payload.lookup "message" with
    | some _ => .error .systemExit
    | none => .error .keyError

/-- Sextet value to base64 alphabet character code
(`A-Z`, `a-z`, `0-9`, `+`, `/`). -/
def b64Char (n : Nat) : Nat :=
  if n < 26 then 65 + n
  else if n < 52 then 97 + (n - 26)
  else if n < 62 then 48 + (n - 52)
  else if n = 62 then 43
  else 47

/-- Base64 alphabet character code back to its sextet value. -/
def b64Val (c : Nat) : Option Nat :=
  if 65 ≤ c ∧ c ≤ 90 then some (c - 65)
  else if 97 ≤ c ∧ c ≤ 122 then some (c - 97 + 26)
  else if 48 ≤ c ∧ c ≤ 57 then some (c - 48 + 52)
  else if c = 43 then some 62
  else if c = 47 then some 63
  else none

/-- Base64 encoding of a byte list (`base64.b64encode`): groups of three
bytes become four alphabet characters, with `=` (code 61) padding. -/
def b64encode : List Nat → List Nat
  | [] => []
  | [a] => [b64Char (a / 4), b64Char (a % 4 * 16), 61, 61]
  | [a, b] => [b64Char (a / 4), b64Char (a % 4 * 16 + b / 16), b64Char (b % 16 * 4), 61]
  | a :: b :: c :: rest =>
      b64Char (a / 4) :: b64Char (a % 4 * 16 + b / 16)
        :: b64Char (b % 16 * 4 + c / 64) :: b64Char (c % 64) :: b64encode rest

/-- Base64 decoding of a character-code list (`base64.b64decode`): groups of
four characters become three bytes, fewer at the `=` padding. -/
def b64decode : List Nat → List Nat
  | c0 :: c1 :: c2 :: c3 :: rest =>
      match b64Val c0, b64Val c1 with
      | some s0, some s1 =>
          if c2 = 61 then [s0 * 4 + s1 / 16]
          else
            match b64Val c2 with
            | some s2 =>
                if c3 = 61 then [s0 * 4 + s1 / 16, s1 % 16 * 16 + s2 / 4]
                else
                  match b64Val c3 with
                  | some s3 =>
                      (s0 * 4 + s1 / 16) :: (s1 % 16 * 16 + s2 / 4)
                        :: (s2 % 4 * 64 + s3) :: b64decode rest
                  | none => []
            | none => []
      | _, _ => []
  | _ => []

/-- UTF-8 encoding of one Unicode scalar value as its byte sequence. -/
def utf8EncodeChar (c : Nat) : List Nat :=
  if c < 128 then [c]
  else if c < 2048 then [192 + c / 64, 128 + c % 64]
  else if c < 65536 then [224 + c / 4096, 128 + c / 64 % 64, 128 + c % 64]
  else [240 + c / 262144, 128 + c / 4096 % 64, 128 + c / 64 % 64, 128 + c % 64]

/-- UTF-8 encoding of a sequence of Unicode scalar values. -/
def utf8Encode (cps : List Nat) : List Nat := (cps.map utf8EncodeChar).flatten

/-- Fuelled worker for UTF-8 decoding with invalid bytes dropped: every step
consumes at least one byte, so fuel equal to the byte count is always
enough.  A well-formed sequence (continuation bytes in range, no overlong
form, no surrogate, not above U+10FFFF) yields its scalar; any byte that does
not begin a well-formed sequence is dropped and decoding continues. -/
def utf8DecodeIgnoreFuel : Nat → List Nat → List Nat
  | 0, _ => []
  | _ + 1, [] => []
  | f + 1, b :: bs =>
      if b < 128 then b :: utf8DecodeIgnoreFuel f bs
      else if 194 ≤ b ∧ b ≤ 223 then
        match bs with
        | b1 :: rest =>
            if 128 ≤ b1 ∧ b1 ≤ 191 then
              ((b - 192) * 64 + (b1 - 128)) :: utf8DecodeIgnoreFuel f rest
            else utf8DecodeIgnoreFuel f (b1 :: rest)
        | [] => []
      else if 224 ≤ b ∧ b ≤ 239 then
        match bs with
        | b1 :: b2 :: rest =>
            if (128 ≤ b1 ∧ b1 ≤ 191) ∧ (128 ≤ b2 ∧ b2 ≤ 191)
                ∧ (b = 224 → 160 ≤ b1) ∧ (b = 237 → b1 ≤ 159) then
              ((b - 224) * 4096 + (b1 - 128) * 64 + (b2 - 128))
                :: utf8DecodeIgnoreFuel f rest
            else utf8DecodeIgnoreFuel f (b1 :: b2 :: rest)
        | [b1] => utf8DecodeIgnoreFuel f [b1]
        | [] => []
      else if 240 ≤ b ∧ b ≤ 244 then
        match bs with
        | b1 :: b2 :: b3 :: rest =>
            if (128 ≤ b1 ∧ b1 ≤ 191) ∧ (128 ≤ b2 ∧ b2 ≤ 191) ∧ (128 ≤ b3 ∧ b3 ≤ 191)
                ∧ (b = 240 → 144 ≤ b1) ∧ (b = 244 → b1 ≤ 143) then
              ((b - 240) * 262144 + (b1 - 128) * 4096 + (b2 - 128) * 64 + (b3 - 128))
                :: utf8DecodeIgnoreFuel f rest
            else utf8DecodeIgnoreFuel f (b1 :: b2 :: b3 :: rest)
        | [b1, b2] => utf8DecodeIgnoreFuel f [b1, b2]
        | [b1] => utf8DecodeIgnoreFuel f [b1]
        | [] => []
      else utf8DecodeIgnoreFuel f bs

/-- UTF-8 decoding with invalid bytes dropped (`bytes.decode('utf-8',
errors='ignore')`). -/
def utf8DecodeIgnore (bs : List Nat) : List Nat :=
  utf8DecodeIgnoreFuel bs.length bs

/-- The scalar values a Python `str` may hold: Unicode scalars below U+110000
excluding the surrogate range. -/
def ValidScalars (cps : List Nat) : Prop :=
  ∀ c ∈ cps, c < 1114112 ∧ ¬(55296 ≤ c ∧ c < 57344)

instance : DecidablePred ValidScalars := fun cps =>
  inferInstanceAs (Decidable (∀ c ∈ cps, c < 1114112 ∧ ¬(55296 ≤ c ∧ c < 57344)))

/-- The blob response consumed by `get_file_content_from_sha`: the value of
its `content` field, a base64 text given by its character codes. -/
structure BlobResponse where
  content : List Nat
  deriving DecidableEq

/-- Modelled from the spec (§6) and
`test/unit/webparsers/test_github_parser.py::test_get_file_content_from_sha`:
`GitHubParser.get_file_content_from_sha` base64-decodes the response's
`content` field, decodes the bytes as UTF-8 dropping invalid bytes, and
returns the resulting text (as its scalar values) paired with the given
file path. -/
def get_file_content_from_sha (r : BlobResponse) (file_path : String) :
    List Nat × String :=
  (utf8DecodeIgnore (b64decode r.content), file_path)

/-- Two sample C++ parse trees whose source texts differ only in identifier
names, whitespace (hence source spans), and ignored material: `sampleTreeA`
has an inclusion directive and distinct spans. -/
def sampleTreeA : TreeNode CursorKind :=
  .node .TRANSLATION_UNIT "prog_one" none none ⟨1, 9⟩
    (.cons (.node .INCLUSION_DIRECTIVE "iostream" none none ⟨1, 1⟩ .nil)
      (.cons (.node .FUNCTION_DECL "main" none none ⟨3, 8⟩
        (.cons (.node .BINARY_OPERATOR "" (some "+") none ⟨4, 4⟩ .nil)
          (.cons (.node .INTEGER_LITERAL "" none (some "1") ⟨5, 5⟩ .nil) .nil)))
        .nil))

/-- Counterpart of `sampleTreeA` with renamed identifiers, shifted spans and
a different ignored subtree. -/
def sampleTreeB : TreeNode CursorKind :=
  .node .TRANSLATION_UNIT "prog_two" none none ⟨1, 20⟩
    (.cons (.node .USING_DIRECTIVE "std" none none ⟨2, 2⟩ .nil)
      (.cons (.node .FUNCTION_DECL "entry" none none ⟨6, 17⟩
        (.cons (.node .BINARY_OPERATOR "" (some "+") none ⟨9, 9⟩ .nil)
          (.cons (.node .INTEGER_LITERAL "" none (some "1") ⟨12, 12⟩ .nil) .nil)))
        .nil))

/-- A one-node sample work used to instantiate self-comparison. -/
def sampleWork : TreeNode CursorKind :=
  .node .FUNCTION_DECL "f" none none ⟨1, 1⟩ .nil

/-- Sample fast-metric weights summing to one, favouring operator overlap. -/
def sampleWeights : Weights := ⟨1/2, 1/4, 1/4⟩

/-- A sample tree rooted at an ignored kind (a namespace) with a non-ignored
descendant. -/
def sampleDirective : TreeNode CursorKind :=
  .node .NAMESPACE "ns" none none ⟨1, 3⟩
    (.cons (.node .FUNCTION_DECL "g" none none ⟨2, 2⟩ .nil) .nil)

/-- Empty sample features, used to build concrete works. -/
def sampleFeatures : CanonicalFeatures CursorKind :=
  ⟨[], 0, ∅, 0, 0, []⟩

/-- Three sample works with distinct origins. -/
def sampleWorks : List (Work CursorKind) :=
  [⟨"a.py", sampleFeatures⟩, ⟨"b.py", sampleFeatures⟩, ⟨"c.py", sampleFeatures⟩]

/-- The sample works supplied in a different order. -/
def sampleWorksPerm : List (Work CursorKind) :=
  [⟨"c.py", sampleFeatures⟩, ⟨"a.py", sampleFeatures⟩, ⟨"b.py", sampleFeatures⟩]

/-- A sample comparison result, used to build concrete report records. -/
def sampleResult : ComparisonResult :=
  { unit_a_id := "a.py", unit_b_id := "b.py", fast_metric := 1/2,
    precise_metric := some (2/3), matched_fragments := [], matched := true }

theorem stripSpan_kind {K : Type} (ti : TokenInfo K) : (stripSpan ti).kind = ti.kind := rfl

theorem stripSpan_op {K : Type} (ti : TokenInfo K) : (stripSpan ti).op = ti.op := rfl

theorem stripSpan_lit {K : Type} (ti : TokenInfo K) : (stripSpan ti).lit = ti.lit := rfl

theorem visited_eq_nil_of_mem {K : Type} (ign : List K) [DecidableEq K]
    (t : TreeNode K) (h : t.kind ∈ ign) : visited ign t = [] := by
  cases t with
  | node k n o l sp cs =>
      simp only [TreeNode.kind] at h
      simp [visited, h]

mutual
theorem visited_canon {K : Type} (ign : List K) [DecidableEq K] (t : TreeNode K) :
    visited ign (canon ign t) = (visited ign t).map stripSpan := by
  cases t with
  | node k n o l sp cs =>
      by_cases h : k ∈ ign
      · simp [canon, visited, h]
      · simp [canon, visited, h, stripSpan, visitedF_canonF ign cs]
theorem visitedF_canonF {K : Type} (ign : List K) [DecidableEq K] (ts : Forest K) :
    visitedF ign (canonF ign ts) = (visitedF ign ts).map stripSpan := by
  cases ts with
  | nil => simp [canonF, visitedF]
  | cons t ts =>
      by_cases h : t.kind ∈ ign
      · simp [canonF, visitedF, h, visited_eq_nil_of_mem ign t h, visitedF_canonF ign ts]
      · simp [canonF, visitedF, h, visited_canon ign t, visitedF_canonF ign ts]
end

/-- C1: feature extraction is a pure function of the parsed structure: for
every supported language (any kind alphabet and ignore set), two parse trees
whose source texts differ only in identifier names, whitespace, and
comments — i.e. trees with the same canonical shape, names and spans free,
ignored subtrees dropped — yield identical CanonicalFeatures: identical
head_sequence, operator_set, literal_set, both counts, and the same
position-index structure. -/
theorem extraction_invariance {K : Type} (ign : List K) [DecidableEq K]
    (t₁ t₂ : TreeNode K) (h : canon ign t₁ = canon ign t₂) :
    (extract ign t₁).head_sequence = (extract ign t₂).head_sequence ∧
    (extract ign t₁).operator_set = (extract ign t₂).operator_set ∧
    (extract ign t₁).literal_set = (extract ign t₂).literal_set ∧
    (extract ign t₁).unique_node_count = (extract ign t₂).unique_node_count ∧
    (extract ign t₁).total_node_count = (extract ign t₂).total_node_count ∧
    (extract ign t₁).position_index.length = (extract ign t₂).position_index.length := by
  have hv : (visited ign t₁).map stripSpan = (visited ign t₂).map stripSpan := by
    rw [← visited_canon, ← visited_canon, h]
  have hkind : (visited ign t₁).map TokenInfo.kind = (visited ign t₂).map TokenInfo.kind := by
    have h2 := congrArg (List.map TokenInfo.kind) hv
    simpa [List.map_map, Function.comp_def, stripSpan_kind] using h2
  have hop : (visited ign t₁).filterMap TokenInfo.op
      = (visited ign t₂).filterMap TokenInfo.op := by
    have h2 := congrArg (List.filterMap TokenInfo.op) hv
    simpa [List.filterMap_map, Function.comp_def, stripSpan_op] using h2
  have hlit : (visited ign t₁).filterMap TokenInfo.lit
      = (visited ign t₂).filterMap TokenInfo.lit := by
    have h2 := congrArg (List.filterMap TokenInfo.lit) hv
    simpa [List.filterMap_map, Function.comp_def, stripSpan_lit] using h2
  have hlen : (visited ign t₁).length = (visited ign t₂).length := by
    have h2 := congrArg List.length hv
    simpa using h2
  refine ⟨?_, ?_, ?_, ?_, ?_, ?_⟩ <;>
    simp [extract, hkind, hop, hlit, hlen]

/-- Witness for C1 on the two sample trees. -/
theorem extraction_invariance_witness :
    canon IGNORE sampleTreeA = canon IGNORE sampleTreeB ∧
    ((extract IGNORE sampleTreeA).head_sequence = (extract IGNORE sampleTreeB).head_sequence ∧
     (extract IGNORE sampleTreeA).operator_set = (extract IGNORE sampleTreeB).operator_set ∧
     (extract IGNORE sampleTreeA).literal_set = (extract IGNORE sampleTreeB).literal_set ∧
     (extract IGNORE sampleTreeA).unique_node_count
        = (extract IGNORE sampleTreeB).unique_node_count ∧
     (extract IGNORE sampleTreeA).total_node_count
        = (extract IGNORE sampleTreeB).total_node_count ∧
     (extract IGNORE sampleTreeA).position_index.length
        = (extract IGNORE sampleTreeB).position_index.length) :=
  ⟨rfl, extraction_invariance IGNORE sampleTreeA sampleTreeB rfl⟩

/-- C4: in the fast metric, a Jaccard component over disjoint inputs is 1
exactly when both inputs are themselves empty (vacuous agreement) and 0
otherwise — in particular it is 0, never 1, when both inputs are nonempty
but disjoint; stated for the operator-multiset component `jaccardM` and the
literal-set component `jaccardF` of `fast`. -/
theorem jaccard_disjoint_vacuous (a b : Multiset String) (s t : Finset String)
    (hab : a ∩ b = 0) (hst : s ∩ t = ∅) :
    jaccardM a b = (if a = 0 ∧ b = 0 then 1 else 0) ∧
    jaccardF s t = (if s = ∅ ∧ t = ∅ then 1 else 0) := by
  constructor
  · by_cases h : a = 0 ∧ b = 0
    · rw [if_pos h]
      unfold jaccardM
      rw [if_pos (by simp [h.1, h.2])]
    · rw [if_neg h]
      have hu : a ∪ b ≠ 0 := by
        intro hu
        exact h (by
          simpa [Multiset.eq_zero_iff_forall_not_mem, Multiset.mem_union, not_or,
            forall_and] using hu)
      unfold jaccardM
      rw [if_neg hu, hab]
      simp
  · by_cases h : s = ∅ ∧ t = ∅
    · rw [if_pos h]
      unfold jaccardF
      rw [if_pos (by simp [h.1, h.2])]
    · rw [if_neg h]
      have hu : s ∪ t ≠ ∅ := by
        intro hu
        exact h (by simpa [Finset.union_eq_empty] using hu)
      unfold jaccardF
      rw [if_neg hu, hst]
      simp

/-- Witness for C4 at nonempty disjoint operator multisets and literal
sets. -/
theorem jaccard_disjoint_vacuous_witness :
    ({"+"} : Multiset String) ∩ {"-"} = 0 ∧
    ({"1"} : Finset String) ∩ {"2"} = ∅ ∧
    (jaccardM {"+"} {"-"} = (if ({"+"} : Multiset String) = 0 ∧ ({"-"} : Multiset String) = 0 then 1 else 0) ∧
     jaccardF {"1"} {"2"} = (if ({"1"} : Finset String) = ∅ ∧ ({"2"} : Finset String) = ∅ then 1 else 0)) :=
  ⟨by decide, by decide, jaccard_disjoint_vacuous {"+"} {"-"} {"1"} {"2"} (by decide) (by decide)⟩

theorem jaccardM_comm (a b : Multiset String) : jaccardM a b = jaccardM b a := by
  unfold jaccardM
  rw [Multiset.union_comm, Multiset.inter_comm]

theorem jaccardF_comm (a b : Finset String) : jaccardF a b = jaccardF b a := by
  unfold jaccardF
  rw [Finset.union_comm, Finset.inter_comm]

theorem sizeSim_comm (m n : Nat) : sizeSim m n = sizeSim n m := by
  unfold sizeSim
  rw [Nat.min_comm, Nat.max_comm]

theorem lcsLength_nil_right {K : Type} [DecidableEq K] (xs : List K) :
    lcsLength xs [] = 0 := by
  cases xs <;> simp [lcsLength]

theorem lcsLength_comm_aux {K : Type} [DecidableEq K] :
    ∀ (n : Nat) (xs ys : List K), xs.length + ys.length ≤ n →
      lcsLength xs ys = lcsLength ys xs := by
  intro n
  induction n with
  | zero =>
      intro xs ys h
      have hx : xs = [] := by
        cases xs
        · rfl
        · simp at h
      have hy : ys = [] := by
        cases ys
        · rfl
        · simp at h
      rw [hx, hy]
  | succ n ih =>
      intro xs ys h
      match xs, ys with
      | [], ys => rw [lcsLength_nil_right]; cases ys <;> simp [lcsLength]
      | x :: xs, [] => rw [lcsLength_nil_right]; simp [lcsLength]
      | x :: xs, y :: ys =>
          simp only [List.length_cons] at h
          simp only [lcsLength]
          by_cases hxy : x = y
          · rw [if_pos hxy, if_pos hxy.symm, ih xs ys (by omega)]
          · rw [if_neg hxy, if_neg (fun hyx => hxy hyx.symm),
              ih (x :: xs) ys (by simp; omega), ih xs (y :: ys) (by simp; omega),
              Nat.max_comm]

theorem lcsLength_comm {K : Type} [DecidableEq K] (xs ys : List K) :
    lcsLength xs ys = lcsLength ys xs :=
  lcsLength_comm_aux (xs.length + ys.length) xs ys le_rfl

/-- C2: both comparison metrics are symmetric — for all CanonicalFeatures
`a` and `b`, `fast w a b = fast w b a` for any weights, and the score
component of `precise a b` equals the score component of `precise b a`. -/
theorem metrics_symm {K : Type} [DecidableEq K] (w : Weights)
    (a b : CanonicalFeatures K) :
    fast w a b = fast w b a ∧ (precise a b).1 = (precise b a).1 := by
  constructor
  · unfold fast
    rw [jaccardM_comm, jaccardF_comm, sizeSim_comm]
  · unfold precise
    simp only
    rw [lcsLength_comm, add_comm ((a.head_sequence.length : ℚ))]

theorem jaccardM_self (a : Multiset String) : jaccardM a a = 1 := by
  unfold jaccardM
  have hu : a ∪ a = a := by
    apply le_antisymm
    · exact sup_le le_rfl le_rfl
    · exact le_sup_left
  have hi : a ∩ a = a := by
    apply le_antisymm
    · exact inf_le_left
    · exact le_inf le_rfl le_rfl
  by_cases h : a = 0
  · simp [h]
  · rw [if_neg (by rw [hu]; exact h), hu, hi]
    exact div_self (by
      simpa [Multiset.card_eq_zero] using h)

theorem jaccardF_self (s : Finset String) : jaccardF s s = 1 := by
  unfold jaccardF
  rw [Finset.union_self, Finset.inter_self]
  by_cases h : s = ∅
  · simp [h]
  · rw [if_neg h]
    exact div_self (by
      simpa [Finset.card_eq_zero] using h)

theorem sizeSim_self (n : Nat) (h : n ≠ 0) : sizeSim n n = 1 := by
  unfold sizeSim
  rw [Nat.min_self, Nat.max_self]
  exact div_self (by exact_mod_cast h)

theorem lcsLength_self {K : Type} [DecidableEq K] (xs : List K) :
    lcsLength xs xs = xs.length := by
  induction xs with
  | nil => simp [lcsLength]
  | cons x xs ih => simp [lcsLength, ih]

theorem visited_ne_nil {K : Type} (ign : List K) [DecidableEq K]
    (t : TreeNode K) (h : t.kind ∉ ign) : visited ign t ≠ [] := by
  cases t with
  | node k n o l sp cs =>
      simp only [TreeNode.kind] at h
      simp [visited, h]

/-- C3: a work compared against itself (same text, hence equal
CanonicalFeatures, and a non-ignored root so the head sequence is inhabited)
scores `fast = 1` and a precise score of `1`, and is matched at every
threshold at most 100, under the decision rule
`max(fast, precise) * 100 >= Threshold`. -/
theorem self_comparison_identity {K : Type} [DecidableEq K] (ign : List K)
    (t : TreeNode K) (w : Weights) (threshold : ℚ)
    (hw : w.w_op + w.w_lit + w.w_size = 1) (hroot : t.kind ∉ ign)
    (hth : threshold ≤ 100) :
    fast w (extract ign t) (extract ign t) = 1 ∧
    (precise (extract ign t) (extract ign t)).1 = 1 ∧
    matchedDecision threshold (fast w (extract ign t) (extract ign t))
      ((precise (extract ign t) (extract ign t)).1) = true := by
  have hn : (extract ign t).head_sequence.length ≠ 0 := by
    simp only [extract, List.length_map, ne_eq, List.length_eq_zero]
    exact visited_ne_nil ign t hroot
  have hfast : fast w (extract ign t) (extract ign t) = 1 := by
    unfold fast
    rw [jaccardM_self, jaccardF_self, sizeSim_self _ hn]
    linarith [hw]
  have hprecise : (precise (extract ign t) (extract ign t)).1 = 1 := by
    unfold precise
    simp only
    rw [lcsLength_self]
    have h2 : ((extract ign t).head_sequence.length : ℚ)
        + ((extract ign t).head_sequence.length : ℚ)
        = 2 * ((extract ign t).head_sequence.length : ℚ) := by ring
    rw [h2]
    exact div_self (by
      have : ((extract ign t).head_sequence.length : ℚ) ≠ 0 := by exact_mod_cast hn
      exact mul_ne_zero two_ne_zero this)
  refine ⟨hfast, hprecise, ?_⟩
  rw [hfast, hprecise]
  simp only [matchedDecision, max_self, one_mul, ge_iff_le, decide_eq_true_eq]
  linarith

/-- Witness for C3: the one-node sample work against itself at the default
threshold 65. -/
theorem self_comparison_identity_witness :
    sampleWeights.w_op + sampleWeights.w_lit + sampleWeights.w_size = 1 ∧
    sampleWork.kind ∉ IGNORE ∧
    (65 : ℚ) ≤ 100 ∧
    (fast sampleWeights (extract IGNORE sampleWork) (extract IGNORE sampleWork) = 1 ∧
     (precise (extract IGNORE sampleWork) (extract IGNORE sampleWork)).1 = 1 ∧
     matchedDecision 65
       (fast sampleWeights (extract IGNORE sampleWork) (extract IGNORE sampleWork))
       ((precise (extract IGNORE sampleWork) (extract IGNORE sampleWork)).1) = true) :=
  ⟨by norm_num [sampleWeights], by decide, by norm_num,
   self_comparison_identity IGNORE sampleWork sampleWeights 65
     (by norm_num [sampleWeights]) (by decide) (by norm_num)⟩

/-- C5, counterexample: contrary to the claim, in the source constant
`OPERATORS` the compound assignment operator `+=` is a bucket of its own:
membership is tested against the flat tuple and a matching token is counted
under its own spelling, so the operator evidence of `a += b` is the
singleton `+=`, the evidence of `a = a + b` is `=` and `+`, and the two are
disjoint — `+=` is not merged into the `=` bucket nor into the `+` bucket. -/
theorem compound_ops_counterexample :
    operatorEvidence ["a", "+=", "b"] = {"+="} ∧
    operatorEvidence ["a", "=", "a", "+", "b"] = {"=", "+"} ∧
    operatorEvidence ["a", "+=", "b"] ∩ operatorEvidence ["a", "=", "a", "+", "b"] = 0 ∧
    "+=" ∈ OPERATORS ∧ "+=" ≠ "+" ∧ "+=" ≠ "=" := by
  refine ⟨by decide, by decide, by decide, by decide, by decide, by decide⟩

/-- C5, amended: compound assignment operators are not normalized — each of
`+=`, `-=`, `*=`, `/=`, `%=` appears in `OPERATORS` as its own bucket,
distinct from plain `=` and from its base operator (which are further,
separate buckets), and consequently `a += b` and `a = a + b` contribute
disjoint, not overlapping, operator evidence. -/
theorem compound_ops_own_buckets :
    ("+=" ∈ OPERATORS ∧ "-=" ∈ OPERATORS ∧ "*=" ∈ OPERATORS ∧
      "/=" ∈ OPERATORS ∧ "%=" ∈ OPERATORS) ∧
    ("+" ∈ OPERATORS ∧ "-" ∈ OPERATORS ∧ "*" ∈ OPERATORS ∧
      "/" ∈ OPERATORS ∧ "%" ∈ OPERATORS ∧ "=" ∈ OPERATORS) ∧
    ("+=" ≠ "+" ∧ "+=" ≠ "=" ∧ "-=" ≠ "-" ∧ "-=" ≠ "=" ∧ "*=" ≠ "*" ∧ "*=" ≠ "=" ∧
      "/=" ≠ "/" ∧ "/=" ≠ "=" ∧ "%=" ≠ "%" ∧ "%=" ≠ "=") ∧
    operatorEvidence ["a", "+=", "b"] ∩ operatorEvidence ["a", "=", "a", "+", "b"] = 0 := by
  refine ⟨by decide, by decide, by decide, by decide⟩

/-- C6: for the CPP backend, extraction skips the whole subtree rooted at a
node whose kind is in `IGNORE` (no descendant contributes to the head
sequence), every node with a non-ignored kind contributes exactly one token
(its own kind, followed by its children's contributions), and `IGNORE`
covers the preprocessor-directive, include, using/namespace, comment and
docstring categories of cursor kinds (the last two being empty in libclang's
cursor alphabet, comments never being cursors). -/
theorem cpp_ignore_traversal :
    (∀ t : TreeNode CursorKind, t.kind ∈ IGNORE →
        (extract IGNORE t).head_sequence = []) ∧
    (∀ t : TreeNode CursorKind, t.kind ∉ IGNORE →
        (extract IGNORE t).head_sequence
          = t.kind :: (visitedF IGNORE t.children).map TokenInfo.kind) ∧
    (∀ k : CursorKind,
        isPreprocessorDirectiveKind k ∨ isIncludeKind k ∨ isUsingOrNamespaceKind k ∨
          isCommentKind k ∨ isDocstringKind k → k ∈ IGNORE) := by
  refine ⟨?_, ?_, ?_⟩
  · intro t ht
    simp [extract, visited_eq_nil_of_mem IGNORE t ht]
  · intro t ht
    cases t with
    | node k n o l sp cs =>
        simp only [TreeNode.kind] at ht
        simp [extract, visited, TreeNode.kind, TreeNode.children, ht]
  · intro k hk
    rcases hk with h | h | h | h | h
    · rw [h]; decide
    · rw [h]; decide
    · rcases h with h | h <;> (rw [h]; decide)
    · exact absurd h not_false
    · exact absurd h not_false

/-- Witness for C6: an ignored namespace root whose function-declaration
descendant contributes nothing; a non-ignored one-node work contributing
exactly its own kind; and the namespace kind covered by the ignore set. -/
theorem cpp_ignore_traversal_witness :
    sampleDirective.kind ∈ IGNORE ∧
    (extract IGNORE sampleDirective).head_sequence = [] ∧
    sampleWork.kind ∉ IGNORE ∧
    (extract IGNORE sampleWork).head_sequence
      = sampleWork.kind :: (visitedF IGNORE sampleWork.children).map TokenInfo.kind ∧
    isUsingOrNamespaceKind CursorKind.NAMESPACE ∧
    CursorKind.NAMESPACE ∈ IGNORE :=
  ⟨by decide, cpp_ignore_traversal.1 sampleDirective (by decide),
   by decide, cpp_ignore_traversal.2.1 sampleWork (by decide),
   Or.inr rfl, cpp_ignore_traversal.2.2 CursorKind.NAMESPACE (Or.inr (Or.inr (Or.inl (Or.inr rfl))))⟩

theorem allPairs_length {α : Type} (l : List α) :
    2 * (allPairs l).length = l.length * (l.length - 1) := by
  induction l with
  | nil => simp [allPairs]
  | cons x xs ih =>
      simp only [allPairs, List.length_append, List.length_map, List.length_cons,
        Nat.add_sub_cancel]
      have key : (xs.length + 1) * xs.length
          = xs.length * (xs.length - 1) + 2 * xs.length := by
        cases xs with
        | nil => simp
        | cons y ys => simp only [List.length_cons, Nat.add_sub_cancel]; ring
      rw [key]
      linarith [ih]

theorem allPairs_mem {α : Type} {p : α × α} :
    ∀ {l : List α}, p ∈ allPairs l → p.1 ∈ l ∧ p.2 ∈ l := by
  intro l
  induction l with
  | nil => simp [allPairs]
  | cons x xs ih =>
      intro hp
      simp only [allPairs, List.mem_append, List.mem_map] at hp
      rcases hp with ⟨y, hy, rfl⟩ | hp
      · exact ⟨List.mem_cons_self x xs, List.mem_cons_of_mem x hy⟩
      · exact ⟨List.mem_cons_of_mem x (ih hp).1, List.mem_cons_of_mem x (ih hp).2⟩

theorem allPairs_ne {α : Type} {l : List α} (hl : l.Nodup) :
    ∀ p ∈ allPairs l, p.1 ≠ p.2 := by
  induction l with
  | nil => simp [allPairs]
  | cons x xs ih =>
      intro p hp
      rcases List.nodup_cons.1 hl with ⟨hx, hxs⟩
      simp only [allPairs, List.mem_append, List.mem_map] at hp
      rcases hp with ⟨y, hy, rfl⟩ | hp
      · exact fun h => hx (by rw [show x = y from h]; exact hy)
      · exact ih hxs p hp

theorem allPairs_pairwise {α : Type} {l : List α} (hl : l.Nodup) :
    (allPairs l).Pairwise (fun p q =>
      ¬(p.1 = q.1 ∧ p.2 = q.2) ∧ ¬(p.1 = q.2 ∧ p.2 = q.1)) := by
  induction l with
  | nil => simp [allPairs]
  | cons x xs ih =>
      rcases List.nodup_cons.1 hl with ⟨hx, hxs⟩
      simp only [allPairs]
      apply List.pairwise_append.2
      refine ⟨?_, ih hxs, ?_⟩
      · rw [List.pairwise_map]
        refine List.Pairwise.imp_of_mem ?_ hxs
        intro a b ha hb hne
        exact ⟨fun hc => hne hc.2, fun hc => hx (by rw [show x = b from hc.1]; exact hb)⟩
      · intro p hp q hq
        rcases List.mem_map.1 hp with ⟨y, hy, rfl⟩
        have hq12 := allPairs_mem hq
        exact ⟨fun hc => hx (by rw [show x = q.1 from hc.1]; exact hq12.1),
          fun hc => hx (by rw [show x = q.2 from hc.1]; exact hq12.2)⟩

theorem allPairs_map {α β : Type} (f : α → β) (l : List α) :
    allPairs (l.map f) = (allPairs l).map (Prod.map f f) := by
  induction l with
  | nil => simp [allPairs]
  | cons x xs ih =>
      simp [allPairs, ih, List.map_map, Function.comp_def, Prod.map]

theorem allPairs_perm_map {α β : Type} (f : α → α → β) (hf : ∀ a b, f a b = f b a)
    {l₁ l₂ : List α} (h : l₁.Perm l₂) :
    ((allPairs l₁).map fun p => f p.1 p.2).Perm
      ((allPairs l₂).map fun p => f p.1 p.2) := by
  induction h with
  | nil => exact List.Perm.refl _
  | cons x h ih =>
      simp only [allPairs, List.map_append, List.map_map]
      refine List.Perm.append ?_ ih
      have hmap := h.map fun y => f x y
      simpa [Function.comp_def] using hmap
  | swap x y l =>
      simp only [allPairs, List.map_cons, List.map_append, List.map_map, List.cons_append]
      rw [hf y x]
      refine List.Perm.cons (f x y) ?_
      have hcomm :
          ((l.map fun z => f y z) ++ ((l.map fun z => f x z)
              ++ ((allPairs l).map fun p => f p.1 p.2))).Perm
            ((l.map fun z => f x z) ++ ((l.map fun z => f y z)
              ++ ((allPairs l).map fun p => f p.1 p.2))) := by
        rw [← List.append_assoc, ← List.append_assoc]
        exact (List.perm_append_comm).append_right _
      simpa [Function.comp_def] using hcomm
  | trans h₁ h₂ ih₁ ih₂ => exact ih₁.trans ih₂

theorem compareWorks_unit_a_id {K : Type} [DecidableEq K] (w : Weights)
    (threshold cutoff : ℚ) (a b : Work K) :
    (compareWorks w threshold cutoff a b).unit_a_id = a.origin := by
  simp only [compareWorks]
  split <;> rfl

theorem compareWorks_unit_b_id {K : Type} [DecidableEq K] (w : Weights)
    (threshold cutoff : ℚ) (a b : Work K) :
    (compareWorks w threshold cutoff a b).unit_b_id = b.origin := by
  simp only [compareWorks]
  split <;> rfl

theorem manyToMany_map_ids {K : Type} [DecidableEq K] {β : Type} (w : Weights)
    (threshold cutoff : ℚ) (works : List (Work K)) (g : String → String → β) :
    (manyToMany w threshold cutoff works).map (fun r => g r.unit_a_id r.unit_b_id)
      = (allPairs works).map (fun p => g p.1.origin p.2.origin) := by
  unfold manyToMany
  rw [List.map_map]
  apply List.map_congr_left
  intro p hp
  simp [Function.comp_def, compareWorks_unit_a_id, compareWorks_unit_b_id]

/-- C7: in `many_to_many` mode over a corpus of `N` successfully parsed
works with distinct origins, exactly `N*(N-1)/2` comparison results are
produced, none pairs a unit with itself, no unordered pair of units occurs
twice, and the multiset of unordered origin pairs does not depend on the
order in which the works are supplied. -/
theorem many_to_many_pairs {K : Type} [DecidableEq K] (w : Weights)
    (threshold cutoff : ℚ) (works works' : List (Work K))
    (hnd : (works.map Work.origin).Nodup) (hperm : works.Perm works') :
    (manyToMany w threshold cutoff works).length = works.length * (works.length - 1) / 2 ∧
    (∀ r ∈ manyToMany w threshold cutoff works, r.unit_a_id ≠ r.unit_b_id) ∧
    (manyToMany w threshold cutoff works).Pairwise (fun r s =>
      ¬(r.unit_a_id = s.unit_a_id ∧ r.unit_b_id = s.unit_b_id) ∧
      ¬(r.unit_a_id = s.unit_b_id ∧ r.unit_b_id = s.unit_a_id)) ∧
    ((manyToMany w threshold cutoff works).map
        (fun r => ({r.unit_a_id, r.unit_b_id} : Finset String))).Perm
      ((manyToMany w threshold cutoff works').map
        (fun r => ({r.unit_a_id, r.unit_b_id} : Finset String))) := by
  refine ⟨?_, ?_, ?_, ?_⟩
  · have hlen : (manyToMany w threshold cutoff works).length = (allPairs works).length := by
      unfold manyToMany
      rw [List.length_map]
    rw [hlen]
    have h2 := allPairs_length works
    omega
  · intro r hr
    unfold manyToMany at hr
    rcases List.mem_map.1 hr with ⟨p, hp, rfl⟩
    rw [compareWorks_unit_a_id, compareWorks_unit_b_id]
    have hmem : (p.1.origin, p.2.origin) ∈ allPairs (works.map Work.origin) := by
      rw [allPairs_map]
      exact List.mem_map.2 ⟨p, hp, rfl⟩
    exact allPairs_ne hnd _ hmem
  · unfold manyToMany
    rw [List.pairwise_map]
    have hpw := allPairs_pairwise hnd
    rw [allPairs_map, List.pairwise_map] at hpw
    refine hpw.imp ?_
    intro p q hpq
    simpa [compareWorks_unit_a_id, compareWorks_unit_b_id, Prod.map] using hpq
  · rw [manyToMany_map_ids w threshold cutoff works fun a b => ({a, b} : Finset String),
      manyToMany_map_ids w threshold cutoff works' fun a b => ({a, b} : Finset String)]
    exact allPairs_perm_map (fun a b => ({a.origin, b.origin} : Finset String))
      (fun a b => Finset.pair_comm a.origin b.origin) hperm

/-- Witness for C7 on three concrete works and a permutation of them. -/
theorem many_to_many_pairs_witness :
    (sampleWorks.map Work.origin).Nodup ∧
    sampleWorks.Perm sampleWorksPerm ∧
    ((manyToMany sampleWeights 65 (1/2) sampleWorks).length
        = sampleWorks.length * (sampleWorks.length - 1) / 2 ∧
     (∀ r ∈ manyToMany sampleWeights 65 (1/2) sampleWorks,
        r.unit_a_id ≠ r.unit_b_id) ∧
     (manyToMany sampleWeights 65 (1/2) sampleWorks).Pairwise (fun r s =>
        ¬(r.unit_a_id = s.unit_a_id ∧ r.unit_b_id = s.unit_b_id) ∧
        ¬(r.unit_a_id = s.unit_b_id ∧ r.unit_b_id = s.unit_a_id)) ∧
     ((manyToMany sampleWeights 65 (1/2) sampleWorks).map
         (fun r => ({r.unit_a_id, r.unit_b_id} : Finset String))).Perm
       ((manyToMany sampleWeights 65 (1/2) sampleWorksPerm).map
         (fun r => ({r.unit_a_id, r.unit_b_id} : Finset String)))) :=
  ⟨by decide, by decide,
   many_to_many_pairs sampleWeights 65 (1/2) sampleWorks sampleWorksPerm
     (by decide) (by decide)⟩

/-- C8: every persisted report record exposes every declared `WorksReport`
field — both origin identifiers, fast_metric, precise_metric, the matched
flag, matched_fragments, the run's threshold and the run's mode — for every
compared pair: the key list of any record emitted by `saveReports` is
exactly the declared key list. -/
theorem report_fields_complete (threshold : ℚ) (m : Mode)
    (results : List ComparisonResult) (record : List (String × ReportValue))
    (hrecord : record ∈ saveReports threshold m results) :
    record.map Prod.fst = reportKeys := by
  rcases List.mem_map.1 hrecord with ⟨r, _, rfl⟩
  rfl

/-- Witness for C8 on a one-result run at the default threshold. -/
theorem report_fields_complete_witness :
    serializeReport (buildReport 65 Mode.many_to_many sampleResult)
        ∈ saveReports 65 Mode.many_to_many [sampleResult] ∧
    (serializeReport (buildReport 65 Mode.many_to_many sampleResult)).map Prod.fst
        = reportKeys :=
  ⟨by simp [saveReports],
   report_fields_complete 65 Mode.many_to_many [sampleResult] _ (by simp [saveReports])⟩

/-- C9: when `send_get_request` receives a response with a failing status
code, it distinguishes the two failure classes by the presence of a
`message` field in the payload — present means termination via SystemExit,
absent means a KeyError — and in neither case is the failing response
returned to the caller. -/
theorem send_get_request_failure_classes (r : Response) (h : r.status_code ≠ 200) :
    ((∃ v, r.payload.lookup "message" = some v) →
        send_get_request r = .error .systemExit) ∧
    (r.payload.lookup "message" = none →
        send_get_request r = .error .keyError) ∧
    (∀ r' : Response, send_get_request r ≠ .ok r') := by
  unfold send_get_request
  rw [if_neg h]
  refine ⟨?_, ?_, ?_⟩
  · rintro ⟨v, hv⟩
    rw [hv]
  · intro hv
    rw [hv]
  · intro r'
    cases hl : r.payload.lookup "message" <;> simp [hl]

/-- Witness for C9 on the 403 response with a `message` field from
`test_send_get_request_bad`. -/
theorem send_get_request_failure_classes_witness :
    (Response.mk 403 [("message", "Not Found")]).status_code ≠ 200 ∧
    ((∃ v, (Response.mk 403 [("message", "Not Found")]).payload.lookup "message" = some v) →
        send_get_request (Response.mk 403 [("message", "Not Found")])
          = .error .systemExit) ∧
    ((Response.mk 403 [("message", "Not Found")]).payload.lookup "message" = none →
        send_get_request (Response.mk 403 [("message", "Not Found")])
          = .error .keyError) ∧
    (∀ r' : Response,
        send_get_request (Response.mk 403 [("message", "Not Found")]) ≠ .ok r') :=
  ⟨by decide, send_get_request_failure_classes (Response.mk 403 [("message", "Not Found")]) (by decide)⟩

theorem utf8EncodeChar_bytes_lt (c : Nat) (hc : c < 1114112) :
    ∀ b ∈ utf8EncodeChar c, b < 256 := by
  intro b hb
  unfold utf8EncodeChar at hb
  by_cases h1 : c < 128
  · simp [h1] at hb
    omega
  · by_cases h2 : c < 2048
    · simp [h1, h2] at hb
      rcases hb with rfl | rfl <;> omega
    · by_cases h3 : c < 65536
      · simp [h1, h2, h3] at hb
        rcases hb with rfl | rfl | rfl <;> omega
      · simp [h1, h2, h3] at hb
        rcases hb with rfl | rfl | rfl | rfl <;> omega

theorem utf8Encode_bytes_lt (cps : List Nat) (h : ValidScalars cps) :
    ∀ b ∈ utf8Encode cps, b < 256 := by
  intro b hb
  unfold utf8Encode at hb
  rcases List.mem_flatten.1 hb with ⟨l, hl, hbl⟩
  rcases List.mem_map.1 hl with ⟨c, hc, rfl⟩
  exact utf8EncodeChar_bytes_lt c (h c hc).1 b hbl

theorem b64Val_b64Char : ∀ s : Nat, s < 64 → b64Val (b64Char s) = some s := by
  decide

theorem b64Char_ne_pad : ∀ s : Nat, s < 64 → b64Char s ≠ 61 := by
  decide

theorem b64_roundtrip : ∀ (bs : List Nat), (∀ b ∈ bs, b < 256) →
    b64decode (b64encode bs) = bs
  | [], _ => rfl
  | [a], h => by
      have ha : a < 256 := h a (by simp)
      have h0 : b64Val (b64Char (a / 4)) = some (a / 4) := b64Val_b64Char _ (by omega)
      have h1 : b64Val (b64Char (a % 4 * 16)) = some (a % 4 * 16) :=
        b64Val_b64Char _ (by omega)
      simp only [b64encode, b64decode, h0, h1]
      have g1 : a % 4 * 16 / 16 = a % 4 := by
        generalize a % 4 = x
        omega
      have e1 : a / 4 * 4 + a % 4 = a := by omega
      simp [g1, e1]
  | [a, b], h => by
      have ha : a < 256 := h a (by simp)
      have hb : b < 256 := h b (by simp)
      have h0 : b64Val (b64Char (a / 4)) = some (a / 4) := b64Val_b64Char _ (by omega)
      have h1 : b64Val (b64Char (a % 4 * 16 + b / 16)) = some (a % 4 * 16 + b / 16) :=
        b64Val_b64Char _ (by omega)
      have h2 : b64Val (b64Char (b % 16 * 4)) = some (b % 16 * 4) :=
        b64Val_b64Char _ (by omega)
      have hne : ¬(b64Char (b % 16 * 4) = 61) := b64Char_ne_pad _ (by omega)
      simp only [b64encode, b64decode, h0, h1, h2, if_neg hne]
      have g1 : (a % 4 * 16 + b / 16) / 16 = a % 4 := by
        have hy : b / 16 < 16 := by omega
        generalize a % 4 = x at *
        generalize hyy : b / 16 = y at hy ⊢
        omega
      have g2 : (a % 4 * 16 + b / 16) % 16 = b / 16 := by
        have hy : b / 16 < 16 := by omega
        generalize a % 4 = x at *
        generalize hyy : b / 16 = y at hy ⊢
        omega
      have g3 : b % 16 * 4 / 4 = b % 16 := by
        generalize b % 16 = x
        omega
      have e1 : a / 4 * 4 + a % 4 = a := by omega
      have e2 : b / 16 * 16 + b % 16 = b := by omega
      simp [g1, g2, g3, e1, e2]
  | a :: b :: c :: rest, h => by
      have ha : a < 256 := h a (by simp)
      have hb : b < 256 := h b (by simp)
      have hc : c < 256 := h c (by simp)
      have hrest : ∀ x ∈ rest, x < 256 := fun x hx =>
        h x (by simp [hx])
      have h0 : b64Val (b64Char (a / 4)) = some (a / 4) := b64Val_b64Char _ (by omega)
      have h1 : b64Val (b64Char (a % 4 * 16 + b / 16)) = some (a % 4 * 16 + b / 16) :=
        b64Val_b64Char _ (by omega)
      have h2 : b64Val (b64Char (b % 16 * 4 + c / 64)) = some (b % 16 * 4 + c / 64) :=
        b64Val_b64Char _ (by omega)
      have h3 : b64Val (b64Char (c % 64)) = some (c % 64) := b64Val_b64Char _ (by omega)
      have hne2 : ¬(b64Char (b % 16 * 4 + c / 64) = 61) := b64Char_ne_pad _ (by omega)
      have hne3 : ¬(b64Char (c % 64) = 61) := b64Char_ne_pad _ (by omega)
      simp only [b64encode, b64decode, h0, h1, h2, h3, if_neg hne2, if_neg hne3]
      rw [b64_roundtrip rest hrest]
      have g1 : (a % 4 * 16 + b / 16) / 16 = a % 4 := by
        have hy : b / 16 < 16 := by omega
        generalize a % 4 = x at *
        generalize hyy : b / 16 = y at hy ⊢
        omega
      have g2 : (a % 4 * 16 + b / 16) % 16 = b / 16 := by
        have hy : b / 16 < 16 := by omega
        generalize a % 4 = x at *
        generalize hyy : b / 16 = y at hy ⊢
        omega
      have g3 : (b % 16 * 4 + c / 64) / 4 = b % 16 := by
        have hy : c / 64 < 4 := by omega
        generalize b % 16 = x at *
        generalize hyy : c / 64 = y at hy ⊢
        omega
      have g4 : (b % 16 * 4 + c / 64) % 4 = c / 64 := by
        have hy : c / 64 < 4 := by omega
        generalize b % 16 = x at *
        generalize hyy : c / 64 = y at hy ⊢
        omega
      have e1 : a / 4 * 4 + a % 4 = a := by omega
      have e2 : b / 16 * 16 + b % 16 = b := by omega
      have e3 : c / 64 * 64 + c % 64 = c := by omega
      simp [g1, g2, g3, g4, e1, e2, e3]

set_option maxRecDepth 4000 in
theorem utf8DecodeIgnoreFuel_encode :
    ∀ (cps : List Nat) (f : Nat), ValidScalars cps →
      (utf8Encode cps).length ≤ f →
      utf8DecodeIgnoreFuel f (utf8Encode cps) = cps := by
  intro cps
  induction cps with
  | nil =>
      intro f _ _
      have he : utf8Encode [] = [] := rfl
      rw [he]
      cases f <;> simp [utf8DecodeIgnoreFuel]
  | cons c cps ih =>
      intro f hval hlen
      have hc := hval c (List.mem_cons_self c cps)
      have hval' : ValidScalars cps := fun x hx => hval x (List.mem_cons_of_mem c hx)
      have henc : utf8Encode (c :: cps) = utf8EncodeChar c ++ utf8Encode cps := by
        simp [utf8Encode]
      rw [henc] at hlen ⊢
      by_cases h1 : c < 128
      · have he : utf8EncodeChar c = [c] := by simp [utf8EncodeChar, h1]
        rw [he] at hlen ⊢
        simp only [List.singleton_append, List.length_cons] at hlen ⊢
        obtain ⟨g, rfl⟩ : ∃ g, f = g + 1 := ⟨f - 1, by omega⟩
        simp only [utf8DecodeIgnoreFuel, if_pos h1]
        congr 1
        exact ih g hval' (by omega)
      · by_cases h2 : c < 2048
        · have he : utf8EncodeChar c = [192 + c / 64, 128 + c % 64] := by
            simp [utf8EncodeChar, h1, h2]
          rw [he] at hlen ⊢
          simp only [List.cons_append, List.nil_append, List.length_cons] at hlen ⊢
          obtain ⟨g, rfl⟩ : ∃ g, f = g + 1 := ⟨f - 1, by omega⟩
          have e1 : ¬(192 + c / 64 < 128) := by omega
          have e2 : 194 ≤ 192 + c / 64 := by omega
          have e3 : 192 + c / 64 ≤ 223 := by omega
          have e4 : 128 ≤ 128 + c % 64 := by omega
          have e5 : 128 + c % 64 ≤ 191 := by omega
          simp only [utf8DecodeIgnoreFuel, e1, e2, e3, e4, e5, if_false, if_true,
            and_self, and_true, true_and, not_false_eq_true]
          congr 1
          · omega
          · exact ih g hval' (by omega)
        · by_cases h3 : c < 65536
          · have he : utf8EncodeChar c
                = [224 + c / 4096, 128 + c / 64 % 64, 128 + c % 64] := by
              simp [utf8EncodeChar, h1, h2, h3]
            rw [he] at hlen ⊢
            simp only [List.cons_append, List.nil_append, List.length_cons] at hlen ⊢
            obtain ⟨g, rfl⟩ : ∃ g, f = g + 1 := ⟨f - 1, by omega⟩
            have hsur := hc.2
            have e1 : ¬(224 + c / 4096 < 128) := by omega
            have e2 : ¬(224 + c / 4096 ≤ 223) := by omega
            have e3 : 224 ≤ 224 + c / 4096 := by omega
            have e4 : 224 + c / 4096 ≤ 239 := by omega
            have c1 : 128 ≤ 128 + c / 64 % 64 := by omega
            have c2 : 128 + c / 64 % 64 ≤ 191 := by omega
            have c3 : 128 ≤ 128 + c % 64 := by omega
            have c4 : 128 + c % 64 ≤ 191 := by omega
            have i1 : 224 + c / 4096 = 224 → 160 ≤ 128 + c / 64 % 64 := by omega
            have i2 : 224 + c / 4096 = 237 → 128 + c / 64 % 64 ≤ 159 := by omega
            have hdd1 : c / 64 / 64 = c / 4096 := by
              rw [Nat.div_div_eq_div_mul]
            simp only [utf8DecodeIgnoreFuel, e1, e2, e3, e4, c1, c2, c3, c4,
              if_false, if_true, and_self, and_true, true_and, and_false, false_and,
              not_false_eq_true]
            rw [if_pos ⟨i1, i2⟩]
            congr 1
            · omega
            · exact ih g hval' (by omega)
          · have h4 : c < 1114112 := hc.1
            have he : utf8EncodeChar c
                = [240 + c / 262144, 128 + c / 4096 % 64,
                   128 + c / 64 % 64, 128 + c % 64] := by
              simp [utf8EncodeChar, h1, h2, h3]
            rw [he] at hlen ⊢
            simp only [List.cons_append, List.nil_append, List.length_cons] at hlen ⊢
            obtain ⟨g, rfl⟩ : ∃ g, f = g + 1 := ⟨f - 1, by omega⟩
            have e1 : ¬(240 + c / 262144 < 128) := by omega
            have e2 : ¬(240 + c / 262144 ≤ 223) := by omega
            have e3 : ¬(240 + c / 262144 ≤ 239) := by omega
            have e4 : 240 ≤ 240 + c / 262144 := by omega
            have e5 : 240 + c / 262144 ≤ 244 := by omega
            have c1 : 128 ≤ 128 + c / 4096 % 64 := by omega
            have c2 : 128 + c / 4096 % 64 ≤ 191 := by omega
            have c3 : 128 ≤ 128 + c / 64 % 64 := by omega
            have c4 : 128 + c / 64 % 64 ≤ 191 := by omega
            have c5 : 128 ≤ 128 + c % 64 := by omega
            have c6 : 128 + c % 64 ≤ 191 := by omega
            have i1 : 240 + c / 262144 = 240 → 144 ≤ 128 + c / 4096 % 64 := by omega
            have i2 : 240 + c / 262144 = 244 → 128 + c / 4096 % 64 ≤ 143 := by omega
            have hdd1 : c / 64 / 64 = c / 4096 := by
              rw [Nat.div_div_eq_div_mul]
            have hdd2 : c / 4096 / 64 = c / 262144 := by
              rw [Nat.div_div_eq_div_mul]
            simp only [utf8DecodeIgnoreFuel, e1, e2, e3, e4, e5, c1, c2, c3, c4, c5, c6,
              if_false, if_true, and_self, and_true, true_and, and_false,
              false_and, not_false_eq_true]
            rw [if_pos ⟨i1, i2⟩]
            congr 1
            · omega
            · exact ih g hval' (by omega)

theorem utf8DecodeIgnore_encode (cps : List Nat) (h : ValidScalars cps) :
    utf8DecodeIgnore (utf8Encode cps) = cps :=
  utf8DecodeIgnoreFuel_encode cps (utf8Encode cps).length h le_rfl

/-- C10: `get_file_content_from_sha` returns the pair `(content, file_path)`
where the content is the base64-decoded `content` field decoded as UTF-8
with invalid bytes dropped: every valid-UTF-8 stored file round-trips to its
exact text, while the stored bytes of `b"Bad\xee\xeemessage"` (the unit
test's input) decode to `"Badmessage"`, which no longer re-encodes to the
original bytes. -/
theorem file_content_utf8 (cps : List Nat) (path : String) (h : ValidScalars cps) :
    get_file_content_from_sha ⟨b64encode (utf8Encode cps)⟩ path = (cps, path) ∧
    get_file_content_from_sha
        ⟨b64encode [66, 97, 100, 238, 238, 109, 101, 115, 115, 97, 103, 101]⟩ "file.py"
      = ([66, 97, 100, 109, 101, 115, 115, 97, 103, 101], "file.py") ∧
    utf8Encode (utf8DecodeIgnore [66, 97, 100, 238, 238, 109, 101, 115, 115, 97, 103, 101])
      ≠ [66, 97, 100, 238, 238, 109, 101, 115, 115, 97, 103, 101] := by
  refine ⟨?_, by decide, by decide⟩
  unfold get_file_content_from_sha
  rw [b64_roundtrip _ (utf8Encode_bytes_lt cps h), utf8DecodeIgnore_encode cps h]

/-- Witness for C10 at the two-scalar text `"H" ++ U+03E8`. -/
theorem file_content_utf8_witness :
    ValidScalars [72, 1000] ∧
    (get_file_content_from_sha ⟨b64encode (utf8Encode [72, 1000])⟩ "d.py"
        = ([72, 1000], "d.py") ∧
     get_file_content_from_sha
         ⟨b64encode [66, 97, 100, 238, 238, 109, 101, 115, 115, 97, 103, 101]⟩ "file.py"
       = ([66, 97, 100, 109, 101, 115, 115, 97, 103, 101], "file.py") ∧
     utf8Encode (utf8DecodeIgnore [66, 97, 100, 238, 238, 109, 101, 115, 115, 97, 103, 101])
       ≠ [66, 97, 100, 238, 238, 109, 101, 115, 115, 97, 103, 101]) :=
  ⟨by decide, file_content_utf8 [72, 1000] "d.py" (by decide)⟩

end CodePlag
